import Mathlib

set_option maxHeartbeats 1000000

/-!
Formal model of the Jira/Xray bulk data extractor
(`jira-xray-bulk-data-extractor.py`) and its companion utility
(`typify-traditional-team.py`).

The paginator `get_issues_from_project` is modelled as a fueled loop over an
abstract server oracle: the oracle maps (request index, cursor) to one page
response.  Fuel `SAFETY_LIMIT + 1` is always sufficient (proved below), so the
fueled function is total on the Python loop's actual behaviour; a `none`
result would mean the loop ran longer than `SAFETY_LIMIT + 1` iterations,
which is impossible because every non-final iteration appends at least one
issue and the loop stops once `SAFETY_LIMIT` issues have accumulated.
-/

/-- One Jira issue as seen by the paginator.  The pagination code inspects
only `issues[-1]['id']`, so the model keeps just the numeric id. -/
structure Issue where
  id : Nat
deriving DecidableEq, Repr

/-- Outcome of one page request (`session.get` + status check + `json()`):
`authDenied` models status 401/403, `transportError` models every other
raised exception (`raise_for_status`, timeouts, JSON parse failures), and
`ok issues` models a successful page. -/
inductive PageResponse where
  | authDenied
  | transportError
  | ok (issues : List Issue)

/-- `SAFETY_LIMIT = 50000` from `get_issues_from_project`. -/
def SAFETY_LIMIT : Nat := 50000

/-- `max_results = 100` from `get_issues_from_project`. -/
def max_results : Nat := 100

/-- The `while True` loop of `get_issues_from_project`, one constructor
pattern per iteration.  `k` is the request index (used to address the server
oracle), `acc` is `project_issues`, `cursor` is `last_seen_id`.
Mirrors the Python control flow exactly: cap check first, then the request;
401/403 returns `[]` (discarding `acc`), any other error returns `acc`,
an empty page returns `acc`, and a non-empty page is appended before the
cursor advances to the id of its last element. -/
def getIssuesLoop (server : Nat → Option Nat → PageResponse) :
    Nat → Nat → List Issue → Option Nat → Option (List Issue)
  | 0, _, _, _ => none
  | fuel + 1, k, acc, cursor =>
    if SAFETY_LIMIT ≤ acc.length then some acc
    else
      match server k cursor with
      | .authDenied => some []
      | .transportError => some acc
      | .ok [] => some acc
      | .ok (i :: is) =>
          getIssuesLoop server fuel (k + 1) (acc ++ i :: is)
            (some (((i :: is).getLast (List.cons_ne_nil i is)).id))

/-- `get_issues_from_project`, with fuel `SAFETY_LIMIT + 1` (shown sufficient
in `getIssuesLoop_isSome`). -/
def get_issues_from_project (server : Nat → Option Nat → PageResponse) :
    Option (List Issue) :=
  getIssuesLoop server (SAFETY_LIMIT + 1) 0 [] none

theorem getIssuesLoop_succ (server : Nat → Option Nat → PageResponse)
    (fuel k : Nat) (acc : List Issue) (cursor : Option Nat) :
    getIssuesLoop server (fuel + 1) k acc cursor =
      if SAFETY_LIMIT ≤ acc.length then some acc
      else
        match server k cursor with
        | .authDenied => some []
        | .transportError => some acc
        | .ok [] => some acc
        | .ok (i :: is) =>
            getIssuesLoop server fuel (k + 1) (acc ++ i :: is)
              (some (((i :: is).getLast (List.cons_ne_nil i is)).id)) := rfl

theorem getIssuesLoop_isSome (server : Nat → Option Nat → PageResponse) :
    ∀ (fuel k : Nat) (acc : List Issue) (cursor : Option Nat),
      SAFETY_LIMIT - acc.length < fuel →
      (getIssuesLoop server fuel k acc cursor).isSome := by
  intro fuel
  induction fuel with
  | zero => intro k acc cursor h; omega
  | succ n ih =>
    intro k acc cursor h
    rw [getIssuesLoop_succ]
    by_cases hcap : SAFETY_LIMIT ≤ acc.length
    · simp [hcap]
    · rw [if_neg hcap]
      cases hresp : server k cursor with
      | authDenied => simp
      | transportError => simp
      | ok issues =>
        cases issues with
        | nil => simp
        | cons i is =>
          apply ih
          have hlt : acc.length < SAFETY_LIMIT := by omega
          have hlen : (acc ++ i :: is).length = acc.length + (is.length + 1) := by
            simp
          omega

/-- C5: for every server behaviour, the pagination loop of
`get_issues_from_project` finishes within its `SAFETY_LIMIT + 1` request
budget: each iteration either ends the loop (empty page, auth denial, other
error, cap check) or strictly grows the accumulator, which the cap bounds,
so the fueled loop never exhausts its fuel and no infinite request sequence
is possible. -/
theorem pagination_terminates (server : Nat → Option Nat → PageResponse) :
    (get_issues_from_project server).isSome :=
  getIssuesLoop_isSome server (SAFETY_LIMIT + 1) 0 [] none
    (by simp [Nat.lt_succ_self])

theorem getIssuesLoop_congr {f g : Nat → Option Nat → PageResponse}
    (h : ∀ k c, f k c = g k c) :
    ∀ (fuel k : Nat) (acc : List Issue) (cursor : Option Nat),
      getIssuesLoop f fuel k acc cursor = getIssuesLoop g fuel k acc cursor := by
  intro fuel
  induction fuel with
  | zero => intro k acc cursor; rfl
  | succ n ih =>
    intro k acc cursor
    rw [getIssuesLoop_succ, getIssuesLoop_succ]
    by_cases hcap : SAFETY_LIMIT ≤ acc.length
    · simp [hcap]
    · rw [if_neg hcap, if_neg hcap, h k cursor]
      cases g k cursor with
      | authDenied => rfl
      | transportError => rfl
      | ok issues =>
        cases issues with
        | nil => rfl
        | cons i is => exact ih (k + 1) (acc ++ i :: is) _

theorem getIssuesLoop_shift (server : Nat → Option Nat → PageResponse) :
    ∀ (fuel k : Nat) (acc : List Issue) (cursor : Option Nat),
      getIssuesLoop server fuel (k + 1) acc cursor =
        getIssuesLoop (fun j => server (j + 1)) fuel k acc cursor := by
  intro fuel
  induction fuel with
  | zero => intro k acc cursor; rfl
  | succ n ih =>
    intro k acc cursor
    rw [getIssuesLoop_succ, getIssuesLoop_succ]
    by_cases hcap : SAFETY_LIMIT ≤ acc.length
    · simp [hcap]
    · rw [if_neg hcap, if_neg hcap]
      cases server (k + 1) cursor with
      | authDenied => rfl
      | transportError => rfl
      | ok issues =>
        cases issues with
        | nil => rfl
        | cons i is => exact ih (k + 1) (acc ++ i :: is) _

/-- A server that plays a fixed list of responses in request order (requests
past the end of the script look like an exhausted project). -/
def scriptServer (script : List PageResponse) : Nat → Option Nat → PageResponse :=
  fun k _ => script.getD k (.ok [])

/-- Concatenation of a list of pages (the issues the loop accumulates). -/
def concatAll : List (List Issue) → List Issue
  | [] => []
  | l :: ls => l ++ concatAll ls

theorem length_le_sumLengths :
    ∀ (pages : List (List Issue)), (∀ p ∈ pages, p ≠ []) →
      pages.length ≤ (pages.map List.length).sum := by
  intro pages
  induction pages with
  | nil => intro; simp
  | cons p ps ih =>
    intro h
    have hp : p ≠ [] := h p (by simp)
    have hlen : 1 ≤ p.length := List.length_pos.2 hp
    have := ih (fun q hq => h q (by simp [hq]))
    simp only [List.length_cons, List.map_cons, List.sum_cons]
    omega

theorem script_auth_empty :
    ∀ (pages : List (List Issue)) (rest : List PageResponse)
      (acc : List Issue) (cursor : Option Nat) (fuel : Nat),
      (∀ p ∈ pages, p ≠ []) →
      acc.length + (pages.map List.length).sum < SAFETY_LIMIT →
      pages.length < fuel →
      getIssuesLoop (scriptServer (pages.map PageResponse.ok ++ .authDenied :: rest))
        fuel 0 acc cursor = some [] := by
  intro pages
  induction pages with
  | nil =>
    intro rest acc cursor fuel hne hcap hfuel
    obtain ⟨n, rfl⟩ : ∃ n, fuel = n + 1 := ⟨fuel - 1, by omega⟩
    rw [getIssuesLoop_succ, if_neg (by simp at hcap; omega)]
    rfl
  | cons p ps ih =>
    intro rest acc cursor fuel hne hcap hfuel
    obtain ⟨n, rfl⟩ : ∃ n, fuel = n + 1 := ⟨fuel - 1, by omega⟩
    rw [getIssuesLoop_succ, if_neg (by omega)]
    have hresp :
        scriptServer ((p :: ps).map PageResponse.ok ++ .authDenied :: rest) 0 cursor
          = .ok p := rfl
    rw [hresp]
    cases p with
    | nil => exact absurd rfl (hne [] (by simp))
    | cons i is =>
      have key : getIssuesLoop
          (scriptServer (((i :: is) :: ps).map PageResponse.ok ++ .authDenied :: rest))
          n (0 + 1) (acc ++ i :: is)
          (some (((i :: is).getLast (List.cons_ne_nil i is)).id)) = some [] := by
        rw [getIssuesLoop_shift,
          getIssuesLoop_congr
            (f := fun j =>
              scriptServer (((i :: is) :: ps).map PageResponse.ok ++ .authDenied :: rest)
                (j + 1))
            (g := scriptServer (ps.map PageResponse.ok ++ .authDenied :: rest))
            (fun k c => rfl)]
        apply ih rest
        · intro q hq; exact hne q (by simp [hq])
        · simp only [List.length_append, List.length_cons, List.map_cons,
            List.sum_cons] at hcap ⊢
          omega
        · simp only [List.length_cons] at hfuel; omega
      exact key

theorem script_error_keeps_acc :
    ∀ (pages : List (List Issue)) (rest : List PageResponse)
      (acc : List Issue) (cursor : Option Nat) (fuel : Nat),
      (∀ p ∈ pages, p ≠ []) →
      acc.length + (pages.map List.length).sum < SAFETY_LIMIT →
      pages.length < fuel →
      getIssuesLoop (scriptServer (pages.map PageResponse.ok ++ .transportError :: rest))
        fuel 0 acc cursor = some (acc ++ concatAll pages) := by
  intro pages
  induction pages with
  | nil =>
    intro rest acc cursor fuel hne hcap hfuel
    obtain ⟨n, rfl⟩ : ∃ n, fuel = n + 1 := ⟨fuel - 1, by omega⟩
    rw [getIssuesLoop_succ, if_neg (by simp at hcap; omega)]
    have hresp :
        scriptServer ([].map PageResponse.ok ++ .transportError :: rest) 0 cursor
          = .transportError := rfl
    rw [hresp]
    simp [concatAll]
  | cons p ps ih =>
    intro rest acc cursor fuel hne hcap hfuel
    obtain ⟨n, rfl⟩ : ∃ n, fuel = n + 1 := ⟨fuel - 1, by omega⟩
    rw [getIssuesLoop_succ, if_neg (by omega)]
    have hresp :
        scriptServer ((p :: ps).map PageResponse.ok ++ .transportError :: rest) 0 cursor
          = .ok p := rfl
    rw [hresp]
    cases p with
    | nil => exact absurd rfl (hne [] (by simp))
    | cons i is =>
      have key : getIssuesLoop
          (scriptServer (((i :: is) :: ps).map PageResponse.ok ++ .transportError :: rest))
          n (0 + 1) (acc ++ i :: is)
          (some (((i :: is).getLast (List.cons_ne_nil i is)).id))
          = some (acc ++ concatAll ((i :: is) :: ps)) := by
        rw [getIssuesLoop_shift,
          getIssuesLoop_congr
            (f := fun j =>
              scriptServer (((i :: is) :: ps).map PageResponse.ok ++ .transportError :: rest)
                (j + 1))
            (g := scriptServer (ps.map PageResponse.ok ++ .transportError :: rest))
            (fun k c => rfl)]
        rw [ih rest (acc ++ i :: is) _ n
            (fun q hq => hne q (by simp [hq]))
            (by simp only [List.length_append, List.length_cons, List.map_cons,
                  List.sum_cons] at hcap ⊢; omega)
            (by simp only [List.length_cons] at hfuel; omega)]
        simp [concatAll, List.append_assoc]
      exact key


/-- C2: if any page's response (including a page after issues were already
accumulated) signals 401/403, `get_issues_from_project` returns the empty
list: the loop-level form shows the accumulator is discarded whatever it
holds, and the script form shows the end-to-end run over N-1 non-empty pages
followed by an authorization denial. -/
theorem auth_denial_discards_accumulated :
    (∀ (server : Nat → Option Nat → PageResponse) (fuel k : Nat)
        (acc : List Issue) (cursor : Option Nat),
        acc.length < SAFETY_LIMIT →
        server k cursor = .authDenied →
        getIssuesLoop server (fuel + 1) k acc cursor = some []) ∧
    (∀ (pages : List (List Issue)) (rest : List PageResponse),
        (∀ p ∈ pages, p ≠ []) →
        (pages.map List.length).sum < SAFETY_LIMIT →
        get_issues_from_project
          (scriptServer (pages.map PageResponse.ok ++ .authDenied :: rest)) = some []) := by
  constructor
  · intro server fuel k acc cursor hacc hresp
    rw [getIssuesLoop_succ, if_neg (by omega), hresp]
  · intro pages rest hne hsum
    have hlen : pages.length ≤ (pages.map List.length).sum :=
      length_le_sumLengths pages hne
    exact script_auth_empty pages rest [] none (SAFETY_LIMIT + 1) hne
      (by simpa using hsum) (by omega)

/-- C2 witness: a concrete run with one non-empty page followed by an
authorization denial returns the empty list, and the loop-level fact applies
at a non-empty accumulator. -/
theorem auth_denial_discards_accumulated_witness :
    getIssuesLoop (fun _ _ => PageResponse.authDenied) (0 + 1) 0 [⟨7⟩] none = some [] ∧
    get_issues_from_project
      (scriptServer ([[⟨9⟩]].map PageResponse.ok ++ .authDenied :: [])) = some [] :=
  ⟨auth_denial_discards_accumulated.1 (fun _ _ => PageResponse.authDenied) 0 0 [⟨7⟩] none
      (by decide) rfl,
    auth_denial_discards_accumulated.2 [[⟨9⟩]] [] (by decide) (by decide)⟩

/-- C3: if a transport or parse error (anything other than 401/403) occurs
on page N, `get_issues_from_project` stops and returns exactly the issues
accumulated from pages 1..N-1, unchanged: loop-level form for an arbitrary
accumulator, and the script form where the result is precisely the
concatenation of the earlier pages. -/
theorem transport_error_returns_accumulated :
    (∀ (server : Nat → Option Nat → PageResponse) (fuel k : Nat)
        (acc : List Issue) (cursor : Option Nat),
        acc.length < SAFETY_LIMIT →
        server k cursor = .transportError →
        getIssuesLoop server (fuel + 1) k acc cursor = some acc) ∧
    (∀ (pages : List (List Issue)),
        (∀ p ∈ pages, p ≠ []) →
        (pages.map List.length).sum < SAFETY_LIMIT →
        get_issues_from_project
          (scriptServer (pages.map PageResponse.ok ++ [.transportError]))
          = some (concatAll pages)) := by
  constructor
  · intro server fuel k acc cursor hacc hresp
    rw [getIssuesLoop_succ, if_neg (by omega), hresp]
  · intro pages hne hsum
    have hlen : pages.length ≤ (pages.map List.length).sum :=
      length_le_sumLengths pages hne
    have := script_error_keeps_acc pages [] [] none (SAFETY_LIMIT + 1) hne
      (by simpa using hsum) (by omega)
    simpa using this

/-- C3 witness: a concrete two-page run ending in a transport error returns
exactly the two earlier pages, concatenated. -/
theorem transport_error_returns_accumulated_witness :
    getIssuesLoop (fun _ _ => PageResponse.transportError) (0 + 1) 0 [⟨7⟩] none
      = some [⟨7⟩] ∧
    get_issues_from_project
      (scriptServer ([[⟨9⟩, ⟨8⟩], [⟨5⟩]].map PageResponse.ok ++ [.transportError]))
      = some (concatAll [[⟨9⟩, ⟨8⟩], [⟨5⟩]]) :=
  ⟨transport_error_returns_accumulated.1 (fun _ _ => PageResponse.transportError) 0 0 [⟨7⟩] none
      (by decide) rfl,
    transport_error_returns_accumulated.2 [[⟨9⟩, ⟨8⟩], [⟨5⟩]] (by decide) (by decide)⟩

theorem getIssuesLoop_length_bound (server : Nat → Option Nat → PageResponse) (P : Nat)
    (hP : ∀ k c issues, server k c = .ok issues → issues.length ≤ P) :
    ∀ (fuel k : Nat) (acc : List Issue) (cursor : Option Nat) (r : List Issue),
      acc.length < SAFETY_LIMIT + P →
      getIssuesLoop server fuel k acc cursor = some r →
      r.length < SAFETY_LIMIT + P := by
  intro fuel
  induction fuel with
  | zero => intro k acc cursor r hacc h; exact absurd h (by simp [getIssuesLoop])
  | succ n ih =>
    intro k acc cursor r hacc h
    rw [getIssuesLoop_succ] at h
    by_cases hcap : SAFETY_LIMIT ≤ acc.length
    · rw [if_pos hcap] at h
      cases h
      exact hacc
    · rw [if_neg hcap] at h
      cases hresp : server k cursor with
      | authDenied =>
        rw [hresp] at h
        cases h
        simp only [List.length_nil]
        omega
      | transportError =>
        rw [hresp] at h
        cases h
        exact hacc
      | ok issues =>
        rw [hresp] at h
        cases issues with
        | nil =>
          cases h
          exact hacc
        | cons i is =>
          have hpage : (i :: is).length ≤ P := hP k cursor (i :: is) hresp
          apply ih (k + 1) (acc ++ i :: is) _ r _ h
          simp only [List.length_append, List.length_cons] at hpage ⊢
          omega

/-- C4 (amended): the returned list can exceed the 50,000-issue cap, but only
by less than one page: if every successful page holds at most `P` issues, the
result holds fewer than `SAFETY_LIMIT + P` issues (so fewer than 50,100 for
the requested `max_results = 100`); and once the accumulator reaches the cap
the next iteration terminates pagination keeping everything accumulated. -/
theorem safety_cap_bound_amended (server : Nat → Option Nat → PageResponse) (P : Nat)
    (hP : ∀ k c issues, server k c = .ok issues → issues.length ≤ P) :
    (∀ r, get_issues_from_project server = some r → r.length < SAFETY_LIMIT + P) ∧
    (∀ (fuel k : Nat) (acc : List Issue) (cursor : Option Nat),
        SAFETY_LIMIT ≤ acc.length →
        getIssuesLoop server (fuel + 1) k acc cursor = some acc) := by
  constructor
  · intro r h
    exact getIssuesLoop_length_bound server P hP (SAFETY_LIMIT + 1) 0 [] none r
      (by simp [SAFETY_LIMIT]) h
  · intro fuel k acc cursor hcap
    rw [getIssuesLoop_succ, if_pos hcap]

/-- C4 witness for the amended bound: a server whose every page carries one
fixed issue satisfies the page bound `P = 1`, and the loop keeps the whole
accumulator once the cap is reached. -/
theorem safety_cap_bound_amended_witness :
    (∀ r, get_issues_from_project (fun _ _ => PageResponse.ok [⟨3⟩]) = some r →
        r.length < SAFETY_LIMIT + 1) ∧
    getIssuesLoop (fun _ _ => PageResponse.ok [⟨3⟩]) (0 + 1) 0
      (List.replicate SAFETY_LIMIT ⟨3⟩) none
      = some (List.replicate SAFETY_LIMIT ⟨3⟩) :=
  ⟨(safety_cap_bound_amended (fun _ _ => PageResponse.ok [⟨3⟩]) 1
      (fun k c issues h => by cases h; decide)).1,
    (safety_cap_bound_amended (fun _ _ => PageResponse.ok [⟨3⟩]) 1
      (fun k c issues h => by cases h; decide)).2 0 0
      (List.replicate SAFETY_LIMIT ⟨3⟩) none (by simp)⟩

theorem getIssuesLoop_cap (server : Nat → Option Nat → PageResponse)
    (fuel : Nat) (hfuel : 0 < fuel) (k : Nat) (acc : List Issue) (cursor : Option Nat)
    (hcap : SAFETY_LIMIT ≤ acc.length) :
    getIssuesLoop server fuel k acc cursor = some acc := by
  obtain ⟨n, rfl⟩ : ∃ n, fuel = n + 1 := ⟨fuel - 1, by omega⟩
  rw [getIssuesLoop_succ, if_pos hcap]

/-- A single page holding `SAFETY_LIMIT + 1` issues. -/
def bigPage : List Issue := ⟨0⟩ :: List.replicate SAFETY_LIMIT ⟨0⟩

/-- A server that answers every request with `bigPage`. -/
def capServer : Nat → Option Nat → PageResponse := fun _ _ => .ok bigPage

theorem bigPage_length : bigPage.length = SAFETY_LIMIT + 1 := by
  rw [bigPage, List.length_cons, List.length_replicate]

/-- C4 counterexample: the claim "the returned list contains at most 50,000
issues" is false — against a server whose first page holds 50,001 issues the
accumulator passes the cap before the check runs and the whole page is
returned (the same overshoot happens with pages of at most 100 issues, e.g.
pages of 99, since the cap is only tested before a fetch). -/
theorem safety_cap_counterexample :
    ∃ r, get_issues_from_project capServer = some r ∧ SAFETY_LIMIT < r.length := by
  refine ⟨bigPage, ?_, by rw [bigPage_length]; omega⟩
  show getIssuesLoop capServer (SAFETY_LIMIT + 1) 0 [] none = some bigPage
  rw [getIssuesLoop_succ, if_neg (by simp [SAFETY_LIMIT])]
  have step : getIssuesLoop capServer SAFETY_LIMIT (0 + 1)
      ([] ++ ⟨0⟩ :: List.replicate SAFETY_LIMIT ⟨0⟩)
      (some ((((⟨0⟩ : Issue) :: List.replicate SAFETY_LIMIT (⟨0⟩ : Issue)).getLast
        (List.cons_ne_nil (⟨0⟩ : Issue) (List.replicate SAFETY_LIMIT (⟨0⟩ : Issue)))).id))
      = some bigPage := by
    rw [getIssuesLoop_cap capServer SAFETY_LIMIT (by decide) (0 + 1) _ _
      (by rw [List.nil_append, List.length_cons, List.length_replicate]; omega)]
    rw [List.nil_append]
    rfl
  exact step

/-- The set of issues the server still has to offer under the cursor
constraint `id < cursor`: all of `data` before the first page, the filtered
remainder afterwards. -/
def cursorFilter (data : List Issue) : Option Nat → List Issue
  | none => data
  | some c => data.filter (fun i => decide (i.id < c))

/-- A server that honors the JQL filter, the `ORDER BY id DESC` ordering and
the `id < cursor` constraint: `data` is the full matching issue set in
descending id order, and each request is answered with the first `ps` issues
of the remainder allowed by the cursor. -/
def honestServer (data : List Issue) (ps : Nat) : Nat → Option Nat → PageResponse :=
  fun _ cursor => .ok ((cursorFilter data cursor).take ps)

theorem getLast_min_of_desc :
    ∀ (page : List Issue), page.Pairwise (fun a b => b.id < a.id) →
      ∀ (hne : page ≠ []) (b : Issue), b ∈ page →
        ¬ b.id < (page.getLast hne).id := by
  intro page
  induction page with
  | nil => intro _ hne; exact absurd rfl hne
  | cons a l ih =>
    intro hp hne b hb
    cases l with
    | nil =>
      have hba : b = a := by simpa using hb
      subst hba
      show ¬ b.id < ([b].getLast (List.cons_ne_nil b [])).id
      have : [b].getLast (List.cons_ne_nil b []) = b := rfl
      rw [this]
      omega
    | cons c t =>
      rw [List.getLast_cons (List.cons_ne_nil c t)]
      rcases List.mem_cons.1 hb with rfl | hbl
      · have hall : ∀ x ∈ c :: t, x.id < b.id := (List.pairwise_cons.1 hp).1
        have hLmem : (c :: t).getLast (List.cons_ne_nil c t) ∈ c :: t :=
          List.getLast_mem (List.cons_ne_nil c t)
        have := hall _ hLmem
        omega
      · exact ih (List.pairwise_cons.1 hp).2 (List.cons_ne_nil c t) b hbl

theorem cursorFilter_getLast (pre page suf : List Issue)
    (hd : (pre ++ (page ++ suf)).Pairwise (fun a b => b.id < a.id))
    (hne : page ≠ []) :
    (pre ++ (page ++ suf)).filter
      (fun i => decide (i.id < (page.getLast hne).id)) = suf := by
  obtain ⟨hpre, hrest, hcross⟩ := List.pairwise_append.1 hd
  obtain ⟨hpage, hsuf, hcross2⟩ := List.pairwise_append.1 hrest
  have hLmem : page.getLast hne ∈ page := List.getLast_mem hne
  rw [List.filter_append, List.filter_append]
  have h1 : pre.filter (fun i => decide (i.id < (page.getLast hne).id)) = [] := by
    rw [List.filter_eq_nil_iff]
    intro a ha
    have := hcross a ha (page.getLast hne) (List.mem_append_left suf hLmem)
    simp only [decide_eq_true_eq]
    omega
  have h2 : page.filter (fun i => decide (i.id < (page.getLast hne).id)) = [] := by
    rw [List.filter_eq_nil_iff]
    intro a ha
    have := getLast_min_of_desc page hpage hne a ha
    simp only [decide_eq_true_eq]
    omega
  have h3 : suf.filter (fun i => decide (i.id < (page.getLast hne).id)) = suf := by
    rw [List.filter_eq_self]
    intro a ha
    have := hcross2 (page.getLast hne) hLmem a ha
    simp only [decide_eq_true_eq]
    omega
  rw [h1, h2, h3, List.nil_append, List.nil_append]

theorem honest_loop (data : List Issue) (ps : Nat) (hps : 0 < ps)
    (hd : data.Pairwise (fun a b => b.id < a.id))
    (hlen : data.length ≤ SAFETY_LIMIT) :
    ∀ (fuel : Nat) (pre suf : List Issue) (cursor : Option Nat) (k : Nat),
      data = pre ++ suf →
      cursorFilter data cursor = suf →
      suf.length < fuel →
      getIssuesLoop (honestServer data ps) fuel k pre cursor = some data := by
  intro fuel
  induction fuel with
  | zero => intro pre suf cursor k hsplit hinv hfuel; omega
  | succ n ih =>
    intro pre suf cursor k hsplit hinv hfuel
    rw [getIssuesLoop_succ]
    by_cases hcap : SAFETY_LIMIT ≤ pre.length
    · rw [if_pos hcap]
      have hlens : data.length = pre.length + suf.length := by
        rw [hsplit]; simp
      have hsufnil : suf = [] := List.eq_nil_of_length_eq_zero (by omega)
      subst hsufnil
      rw [hsplit, List.append_nil]
    · rw [if_neg hcap]
      have hresp : honestServer data ps k cursor = .ok (suf.take ps) := by
        simp [honestServer, hinv]
      rw [hresp]
      cases suf with
      | nil =>
        simp only [List.take_nil]
        rw [hsplit, List.append_nil]
      | cons x xs =>
        obtain ⟨m, rfl⟩ : ∃ m, ps = m + 1 := ⟨ps - 1, by omega⟩
        simp only [List.take_succ_cons]
        have hjoin : (x :: xs.take m) ++ (x :: xs).drop (m + 1) = x :: xs := by
          rw [← List.take_succ_cons, List.take_append_drop]
        have hsp2 : data = (pre ++ x :: xs.take m) ++ (x :: xs).drop (m + 1) := by
          rw [List.append_assoc, hjoin, hsplit]
        have key : getIssuesLoop (honestServer data (m + 1)) n (k + 1)
            (pre ++ x :: xs.take m)
            (some (((x :: xs.take m).getLast (List.cons_ne_nil x (xs.take m))).id))
            = some data := by
          apply ih (pre ++ x :: xs.take m) ((x :: xs).drop (m + 1)) _ (k + 1) hsp2
          · show cursorFilter data
              (some (((x :: xs.take m).getLast (List.cons_ne_nil x (xs.take m))).id))
              = (x :: xs).drop (m + 1)
            show data.filter _ = _
            rw [show data = (pre ++ ((x :: xs.take m) ++ (x :: xs).drop (m + 1))) from
              by rw [← List.append_assoc]; exact hsp2]
            exact cursorFilter_getLast pre (x :: xs.take m) ((x :: xs).drop (m + 1))
              (by rw [List.append_assoc] at hsp2; rw [← hsp2]; exact hd)
              (List.cons_ne_nil x (xs.take m))
          · simp only [List.length_drop, List.length_cons] at hfuel ⊢
            omega
        exact key

/-- C1: against a server that honors the filter, the `ORDER BY id DESC`
ordering and the `id < cursor` constraint (modelled by `honestServer` over
the full matching set `data`, `N = data.length ≤ SAFETY_LIMIT`),
`get_issues_from_project` returns exactly the N matching issues; their ids
are strictly decreasing and unique over the whole returned list, and the
reversed result is sorted strictly ascending by id. -/
theorem paginator_returns_all_issues (data : List Issue) (ps : Nat) (hps : 0 < ps)
    (hd : data.Pairwise (fun a b => b.id < a.id))
    (hlen : data.length ≤ SAFETY_LIMIT) :
    get_issues_from_project (honestServer data ps) = some data ∧
    (data.map Issue.id).Pairwise (fun a b => b < a) ∧
    (data.map Issue.id).Nodup ∧
    ((data.map Issue.id).reverse).Pairwise (fun a b => a < b) := by
  have hmap : (data.map Issue.id).Pairwise (fun a b => b < a) :=
    hd.map Issue.id (fun a b h => h)
  refine ⟨?_, hmap, ?_, ?_⟩
  · exact honest_loop data ps hps hd hlen (SAFETY_LIMIT + 1) [] data none 0 rfl rfl
      (by omega)
  · exact hmap.imp (fun h => (Nat.ne_of_lt h).symm)
  · rw [List.pairwise_reverse]
    exact hmap

/-- C1 witness: a concrete three-issue project paginated with page size 2. -/
theorem paginator_returns_all_issues_witness :
    get_issues_from_project (honestServer [⟨30⟩, ⟨20⟩, ⟨10⟩] 2)
      = some [⟨30⟩, ⟨20⟩, ⟨10⟩] ∧
    (([⟨30⟩, ⟨20⟩, ⟨10⟩] : List Issue).map Issue.id).Pairwise (fun a b => b < a) ∧
    (([⟨30⟩, ⟨20⟩, ⟨10⟩] : List Issue).map Issue.id).Nodup ∧
    ((([⟨30⟩, ⟨20⟩, ⟨10⟩] : List Issue).map Issue.id).reverse).Pairwise
      (fun a b => a < b) :=
  paginator_returns_all_issues [⟨30⟩, ⟨20⟩, ⟨10⟩] 2 (by decide) (by decide) (by decide)

/-- A JSON/Python value as it appears in a parsed Jira response. -/
inductive JValue where
  | null
  | bool (b : Bool)
  | num (n : Int)
  | str (s : String)
  | arr (elems : List JValue)
  | obj (entries : List (String × JValue))

/-- The Python exceptions the normalizer can raise. -/
inductive PyErr where
  | attributeError
  | keyError
  | typeError
deriving DecidableEq, Repr

/-- Python truthiness (`bool(v)`) for the values of the model. -/
def pyTruthy : JValue → Bool
  | .null => false
  | .bool b => b
  | .num n => n != 0
  | .str s => s != ""
  | .arr l => !l.isEmpty
  | .obj es => !es.isEmpty

/-- `d.get(key, default)`: only defined on dicts (otherwise
`AttributeError`), returns the stored value — even `None` — when the key is
present, the default when it is absent. -/
def pyGetD (v : JValue) (key : String) (default : JValue) : Except PyErr JValue :=
  match v with
  | .obj entries => .ok ((entries.lookup key).getD default)
  | _ => .error .attributeError

/-- `d.get(key)` — default `None`. -/
def pyGet (v : JValue) (key : String) : Except PyErr JValue :=
  pyGetD v key .null

/-- `d[key]` subscription with a string key: `KeyError` on a dict missing the
key, `TypeError` on anything else. -/
def pySubscr (v : JValue) (key : String) : Except PyErr JValue :=
  match v with
  | .obj entries =>
    match entries.lookup key with
    | some x => .ok x
    | none => .error .keyError
  | _ => .error .typeError

/-- `x or y`. -/
def pyOr (x y : JValue) : JValue := if pyTruthy x then x else y

/-- `key in v`: key lookup on dicts, substring test on strings, element
equality on lists, `TypeError` otherwise. -/
def pyContains (v : JValue) (key : String) : Except PyErr Bool :=
  match v with
  | .obj es => .ok (es.lookup key).isSome
  | .str s => .ok ((s.splitOn key).length != 1)
  | .arr l => .ok (l.any (fun e => match e with | .str t => t == key | _ => false))
  | _ => .error .typeError

/-- `for x in v`: lists yield their elements, strings their characters,
dicts their keys; anything else raises `TypeError`. -/
def pyIter (v : JValue) : Except PyErr (List JValue) :=
  match v with
  | .arr l => .ok l
  | .str s => .ok (s.toList.map (fun c => .str (String.mk [c])))
  | .obj es => .ok (es.map (fun e => .str e.1))
  | _ => .error .typeError

/-- The elements handed to `str.join` must all be strings (`TypeError`
otherwise). -/
def asStrings : List JValue → Except PyErr (List String)
  | [] => .ok []
  | .str s :: rest => do
    let ss ← asStrings rest
    .ok (s :: ss)
  | _ :: _ => .error .typeError

/-- `sep.join(xs)`. -/
def pyJoin (sep : String) (xs : List JValue) : Except PyErr String := do
  let ss ← asStrings xs
  .ok (String.intercalate sep ss)

/-- The list comprehension `[c[key] for c in items]`. -/
def mapSubscr (key : String) : List JValue → Except PyErr (List JValue)
  | [] => .ok []
  | c :: cs => do
    let v ← pySubscr c key
    let vs ← mapSubscr key cs
    .ok (v :: vs)

/-- The comprehension `[link[side]['key'] for link in items if side in link]`
from the issue-link parsing. -/
def comprehensionLinks (side : String) : List JValue → Except PyErr (List JValue)
  | [] => .ok []
  | link :: rest => do
    let b ← pyContains link side
    if b then do
      let inner ← pySubscr link side
      let k ← pySubscr inner "key"
      let ks ← comprehensionLinks side rest
      .ok (k :: ks)
    else
      comprehensionLinks side rest

/-- `str(v)` as used in the `Link` f-string.  Containers are abbreviated:
no claim inspects the `Link` column, and Python's `repr`-based rendering of
nested containers is irrelevant to every property proved here. -/
def pyStrOf : JValue → String
  | .null => "None"
  | .bool b => if b then "True" else "False"
  | .num n => toString n
  | .str s => s
  | .arr _ => "[...]"
  | .obj _ => "\x7b...\x7d"

/-- `s.split('.')[0]`: the prefix of `s` before its first dot. -/
def truncateAtDot (s : String) : String :=
  String.mk (s.toList.takeWhile (fun c => c != '.'))

/-- `s.split('T')[0]`, used for the `Updated` column. -/
def splitAtT (s : String) : String :=
  String.mk (s.toList.takeWhile (fun c => c != 'T'))

def digitVal (c : Char) : Option Nat :=
  if c.isDigit then some (c.toNat - 48) else none

def twoDigits (a b : Char) : Option Nat := do
  let x ← digitVal a
  let y ← digitVal b
  some (x * 10 + y)

def fourDigits (a b c d : Char) : Option Nat := do
  let x ← twoDigits a b
  let y ← twoDigits c d
  some (x * 100 + y)

def isLeap (y : Nat) : Bool :=
  y % 4 == 0 && (y % 100 != 0 || y % 400 == 0)

def daysInMonth (y m : Nat) : Nat :=
  if m = 2 then (if isLeap y then 29 else 28)
  else if m = 4 ∨ m = 6 ∨ m = 9 ∨ m = 11 then 30
  else 31

def dateValid (y m d : Nat) : Bool :=
  decide (1 ≤ y) && decide (1 ≤ m) && decide (m ≤ 12) &&
    decide (1 ≤ d) && decide (d ≤ daysInMonth y m)

/-- `HH`, `HH:MM` or `HH:MM:SS` with valid ranges. -/
def hmsOk (cs : List Char) : Bool :=
  match cs with
  | [a, b] =>
    match twoDigits a b with
    | some h => decide (h < 24)
    | none => false
  | [a, b, ':', c, d] =>
    match twoDigits a b, twoDigits c d with
    | some h, some mi => decide (h < 24) && decide (mi < 60)
    | _, _ => false
  | [a, b, ':', c, d, ':', e, f] =>
    match twoDigits a b, twoDigits c d, twoDigits e f with
    | some h, some mi, some se => decide (h < 24) && decide (mi < 60) && decide (se < 60)
    | _, _, _ => false
  | _ => false

/-- A UTC-offset body (after its sign): `HH:MM` or `HH:MM:SS`, bounded below
a day as `datetime.timezone` requires. -/
def tzOk (cs : List Char) : Bool :=
  match cs with
  | [a, b, ':', c, d] =>
    match twoDigits a b, twoDigits c d with
    | some h, some mi => decide (h < 24) && decide (mi < 60)
    | _, _ => false
  | [a, b, ':', c, d, ':', e, f] =>
    match twoDigits a b, twoDigits c d, twoDigits e f with
    | some h, some mi, some se => decide (h < 24) && decide (mi < 60) && decide (se < 60)
    | _, _, _ => false
  | _ => false

/-- CPython's time parser looks for a `-`, else a `+`, to find a trailing
offset; the part before it is the wall time. -/
def splitAtTzSign (cs : List Char) : List Char × Option (List Char) :=
  match cs.findIdx? (fun c => c == '-') with
  | some i => (cs.take i, some (cs.drop (i + 1)))
  | none =>
    match cs.findIdx? (fun c => c == '+') with
    | some i => (cs.take i, some (cs.drop (i + 1)))
    | none => (cs, none)

def timeOk (cs : List Char) : Bool :=
  match splitAtTzSign cs with
  | (t, none) => hmsOk t
  | (t, some tz) => hmsOk t && tzOk tz

/-- `datetime.fromisoformat` restricted to fraction-free strings (the code
always truncates at the first `.` before parsing): `YYYY-MM-DD`, optionally
followed by one separator character and a valid wall time with an optional
UTC offset.  Returns the (year, month, day) triple the row derives its three
date columns from; the time part is validated and discarded. -/
def fromisoformatNoFrac (s : String) : Option (Nat × Nat × Nat) :=
  match s.toList with
  | y1 :: y2 :: y3 :: y4 :: '-' :: m1 :: m2 :: '-' :: d1 :: d2 :: rest =>
    match fourDigits y1 y2 y3 y4, twoDigits m1 m2, twoDigits d1 d2 with
    | some y, some m, some d =>
      if dateValid y m d then
        match rest with
        | [] => some (y, m, d)
        | _ :: timeChars => if timeOk timeChars then some (y, m, d) else none
      else none
    | _, _, _ => none
  | _ => none

/-- Zero-padded two-digit rendering, as `%m`/`%d` produce. -/
def pad2 (n : Nat) : String :=
  if n < 10 then "0" ++ toString n else toString n

/-- `strftime('%Y-%m-%d')` (glibc prints the year unpadded; every year in
scope has four digits, where the two renderings agree). -/
def formatDate (y m d : Nat) : String :=
  toString y ++ "-" ++ pad2 m ++ "-" ++ pad2 d

/-- The date-extraction block of `generate_excel_report`: the raw `created`
value is truthiness-tested, split at the first `.`, parsed, and on success
formatted into (Creation Date, Creation Month, Creation Year); a parse
failure (`ValueError`) is swallowed leaving the three `'N/A'` defaults; a
truthy non-string raises `AttributeError` at `.split` (not caught — the
handler catches only `ValueError`). -/
def dateLogic (created : JValue) : Except PyErr (JValue × JValue × JValue) :=
  if pyTruthy created then
    match created with
    | .str s =>
      match fromisoformatNoFrac (truncateAtDot s) with
      | some (y, m, d) => .ok (.str (formatDate y m d), .num (m : Int), .num (y : Int))
      | none => .ok (.str "N/A", .str "N/A", .str "N/A")
    | _ => .error .attributeError
  else .ok (.str "N/A", .str "N/A", .str "N/A")

/-- `info.get('name', default)` — the Status/Priority/Resolution pattern. -/
def subName (info : JValue) (default : String) : Except PyErr JValue :=
  pyGetD info "name" (.str default)

/-- `fields.get('updated', 'N/A').split('T')[0]`. -/
def updatedLogic (v : JValue) : Except PyErr JValue :=
  match v with
  | .str s => .ok (.str (splitAtT s))
  | _ => .error .attributeError

def JIRA_BASE_URL : String := "https://bancoicbc.atlassian.net"

/-- One normalized report row: the 21 columns of the dict literal in
`generate_excel_report`, in order. -/
structure Row where
  projectKey : JValue
  key : JValue
  issueType : JValue
  summary : JValue
  creationDate : JValue
  creationMonth : JValue
  creationYear : JValue
  updated : JValue
  reporterName : JValue
  reporterAccountId : JValue
  assigneeName : JValue
  assigneeAccountId : JValue
  status : JValue
  priority : JValue
  resolution : JValue
  components : JValue
  labels : JValue
  fixVersions : JValue
  linkedIssues : JValue
  originalEstimate : JValue
  link : JValue

/-- Lines 186-191 of the source: "Safe extraction of nested objects".
Returns (project_info, issuetype_info, reporter_info, assignee_info,
priority_info, resolution_info) in evaluation order. -/
def extractInfos (fields : JValue) :
    Except PyErr (JValue × JValue × JValue × JValue × JValue × JValue) := do
  let project_info ← pyGetD fields "project" (.obj [])
  let issuetype_info ← pyGetD fields "issuetype" (.obj [])
  let reporterRaw ← pyGet fields "reporter"
  let reporter_info := pyOr reporterRaw (.obj [])
  let assigneeRaw ← pyGet fields "assignee"
  let assignee_info := pyOr assigneeRaw (.obj [])
  let priorityRaw ← pyGet fields "priority"
  let priority_info := pyOr priorityRaw (.obj [])
  let resolutionRaw ← pyGet fields "resolution"
  let resolution_info := pyOr resolutionRaw (.obj [])
  .ok (project_info, issuetype_info, reporter_info, assignee_info,
    priority_info, resolution_info)

/-- Lines 194-201 of the source: the comma-joined list columns and the link
parsing, in evaluation order.  Returns (components, fix_versions, labels,
linked_issues). -/
def extractLists (fields : JValue) :
    Except PyErr (String × String × String × String) := do
  let componentsV ← pyGetD fields "components" (.arr [])
  let componentsItems ← pyIter componentsV
  let componentNames ← mapSubscr "name" componentsItems
  let components ← pyJoin ", " componentNames
  let fixV ← pyGetD fields "fixVersions" (.arr [])
  let fixItems ← pyIter fixV
  let fixNames ← mapSubscr "name" fixItems
  let fix_versions ← pyJoin ", " fixNames
  let labelsV ← pyGetD fields "labels" (.arr [])
  let labelsItems ← pyIter labelsV
  let labels ← pyJoin ", " labelsItems
  let linksV ← pyGetD fields "issuelinks" (.arr [])
  let linksItems ← pyIter linksV
  let outwardKeys ← comprehensionLinks "outwardIssue" linksItems
  let inwardKeys ← comprehensionLinks "inwardIssue" linksItems
  let linked_issues ← pyJoin ", " (outwardKeys ++ inwardKeys)
  .ok (components, fix_versions, labels, linked_issues)

/-- Lines 207-210: the four `.get` calls on reporter/assignee dicts. -/
def peopleFields (reporter_info assignee_info : JValue) :
    Except PyErr (JValue × JValue × JValue × JValue) := do
  let reporter_name ← pyGet reporter_info "displayName"
  let reporter_id ← pyGet reporter_info "accountId"
  let assignee_name ← pyGet assignee_info "displayName"
  let assignee_id ← pyGet assignee_info "accountId"
  .ok (reporter_name, reporter_id, assignee_name, assignee_id)

/-- Lines 216-218: issue type name with id fallback. -/
def typeField (issuetype_info : JValue) : Except PyErr JValue := do
  let issue_type_name ← pyGet issuetype_info "name"
  let issue_type_id ← pyGet issuetype_info "id"
  .ok (pyOr issue_type_name (pyOr issue_type_id (.str "N/A (Corrupt)")))

/-- The fallible `.get`/`.split` calls of the dict literal (lines 243-263),
in entry order: Project Key, Summary, Updated, Status, Priority,
Resolution. -/
def dictGets (fields project_info priority_info resolution_info : JValue) :
    Except PyErr (JValue × JValue × JValue × JValue × JValue × JValue) := do
  let projectKeyV ← pyGetD project_info "key" (.str "N/A")
  let summaryV ← pyGetD fields "summary" (.str "No Summary")
  let updatedRaw ← pyGetD fields "updated" (.str "N/A")
  let updatedV ← updatedLogic updatedRaw
  let statusInfo ← pyGetD fields "status" (.obj [])
  let statusV ← subName statusInfo "N/A"
  let priorityV ← subName priority_info "Normal"
  let resolutionV ← subName resolution_info "Unresolved"
  .ok (projectKeyV, summaryV, updatedV, statusV, priorityV, resolutionV)

/-- The per-issue body of the `for issue in issues` loop of
`generate_excel_report`, with every fallible Python operation in the
source's evaluation order (nested-object extraction, list joins, link
parsing, time estimate, people fallbacks, issue type, dates, then the dict
literal's own `.get` calls in entry order). -/
def normalizeIssue (issue : JValue) : Except PyErr Row := do
  let key ← pyGetD issue "key" (.str "N/A")
  let fields ← pyGetD issue "fields" (.obj [])
  let (project_info, issuetype_info, reporter_info, assignee_info,
    priority_info, resolution_info) ← extractInfos fields
  let (components, fix_versions, labels, linked_issues) ← extractLists fields
  let time_estimate ← pyGet fields "timeoriginalestimate"
  let (reporter_name, reporter_id, assignee_name, assignee_id) ←
    peopleFields reporter_info assignee_info
  let final_reporter_display := pyOr reporter_name (pyOr reporter_id (.str "Unknown"))
  let final_assignee_display := pyOr assignee_name (pyOr assignee_id (.str "Unassigned"))
  let final_issue_type_display ← typeField issuetype_info
  let createdV ← pyGetD fields "created" (.str "")
  let dates ← dateLogic createdV
  let (projectKeyV, summaryV, updatedV, statusV, priorityV, resolutionV) ←
    dictGets fields project_info priority_info resolution_info
  .ok {
    projectKey := projectKeyV
    key := key
    issueType := final_issue_type_display
    summary := summaryV
    creationDate := dates.1
    creationMonth := dates.2.1
    creationYear := dates.2.2
    updated := updatedV
    reporterName := final_reporter_display
    reporterAccountId := pyOr reporter_id (.str "N/A")
    assigneeName := final_assignee_display
    assigneeAccountId := pyOr assignee_id (.str "N/A")
    status := statusV
    priority := priorityV
    resolution := resolutionV
    components := .str components
    labels := .str labels
    fixVersions := .str fix_versions
    linkedIssues := .str linked_issues
    originalEstimate := match time_estimate with | .null => .num 0 | v => v
    link := .str (JIRA_BASE_URL ++ "/browse/" ++ pyStrOf key) }

/-- The row-building phase of `generate_excel_report` over a list of issues
(the first uncaught exception aborts the whole report). -/
def generate_excel_report_rows : List JValue → Except PyErr (List Row)
  | [] => .ok []
  | i :: rest => do
    let r ← normalizeIssue i
    let rs ← generate_excel_report_rows rest
    .ok (r :: rs)

def isObjB : JValue → Bool
  | .obj _ => true
  | _ => false

def isStrB : JValue → Bool
  | .str _ => true
  | _ => false

/-- Safe under the `fields.get(k) or {}` guard: falsy values collapse to the
empty dict, so only truthy non-dicts are dangerous. -/
def safeInfoB (v : JValue) : Bool := !pyTruthy v || isObjB v

/-- An element of `components`/`fixVersions`: a dict whose `name` is a
string. -/
def namedItemB : JValue → Bool
  | .obj es =>
    match es.lookup "name" with
    | some (.str _) => true
    | _ => false
  | _ => false

def namedListB : JValue → Bool
  | .arr l => l.all namedItemB
  | _ => false

def strListB : JValue → Bool
  | .arr l => l.all isStrB
  | _ => false

/-- One side of an issue link: absent, or a dict whose `key` is a string. -/
def linkSideB (side : String) (link : JValue) : Bool :=
  match link with
  | .obj es =>
    match es.lookup side with
    | none => true
    | some (.obj es2) =>
      match es2.lookup "key" with
      | some (.str _) => true
      | _ => false
    | some _ => false
  | _ => false

def linkItemB (link : JValue) : Bool :=
  linkSideB "outwardIssue" link && linkSideB "inwardIssue" link

def linksListB : JValue → Bool
  | .arr l => l.all linkItemB
  | _ => false

/-- `created` must be falsy (absent/empty/null) or a string — a truthy
non-string hits `.split` and raises. -/
def createdB (v : JValue) : Bool := !pyTruthy v || isStrB v

def optB (p : JValue → Bool) : Option JValue → Bool
  | none => true
  | some v => p v

/-- Shape-level well-formedness of a raw issue: the issue and its `fields`
are dicts; `project`, `issuetype` and `status` are dicts when present;
`reporter`/`assignee`/`priority`/`resolution` are dicts or falsy when
present; `components`/`fixVersions` are lists of name-carrying dicts;
`labels` is a list of strings; `issuelinks` is a list of well-shaped links;
`updated` is a string when present; `created` is falsy or a string.  Note
the asymmetry mirroring the code: a null `status` is NOT well-formed (no
`or {}` guard), while a null `priority` is. -/
def wellFormedIssue : JValue → Bool
  | .obj ies =>
    (match (ies.lookup "fields").getD (.obj []) with
     | .obj fes =>
       optB isObjB (fes.lookup "project") &&
       optB isObjB (fes.lookup "issuetype") &&
       optB isObjB (fes.lookup "status") &&
       optB safeInfoB (fes.lookup "reporter") &&
       optB safeInfoB (fes.lookup "assignee") &&
       optB safeInfoB (fes.lookup "priority") &&
       optB safeInfoB (fes.lookup "resolution") &&
       optB namedListB (fes.lookup "components") &&
       optB namedListB (fes.lookup "fixVersions") &&
       optB strListB (fes.lookup "labels") &&
       optB linksListB (fes.lookup "issuelinks") &&
       optB isStrB (fes.lookup "updated") &&
       optB createdB (fes.lookup "created")
     | _ => false)
  | _ => false

theorem pyGetD_obj (es : List (String × JValue)) (k : String) (d : JValue) :
    pyGetD (.obj es) k d = .ok ((es.lookup k).getD d) := rfl

/-- Whether an `Except` computation succeeded. -/
def exceptOk {α : Type} : Except PyErr α → Bool
  | .ok _ => true
  | .error _ => false

theorem exists_of_exceptOk {α : Type} {e : Except PyErr α}
    (h : exceptOk e = true) : ∃ a, e = .ok a := by
  cases e with
  | ok a => exact ⟨a, rfl⟩
  | error err => simp [exceptOk] at h

theorem pyIter_arr (l : List JValue) : pyIter (.arr l) = .ok l := rfl

theorem okBind {α β : Type} (a : α) (f : α → Except PyErr β) :
    (Except.ok a >>= f : Except PyErr β) = f a := rfl

theorem optB_obj_getD (o : Option JValue) (h : optB isObjB o = true) :
    ∃ es, o.getD (.obj []) = .obj es := by
  cases o with
  | none => exact ⟨[], rfl⟩
  | some v =>
    cases v <;> simp [optB, isObjB] at h ⊢

theorem optB_str_getD (o : Option JValue) (d : String) (h : optB isStrB o = true) :
    ∃ s, o.getD (.str d) = .str s := by
  cases o with
  | none => exact ⟨d, rfl⟩
  | some v =>
    cases v <;> simp [optB, isStrB] at h ⊢

theorem optB_safe_pyOr (o : Option JValue) (h : optB safeInfoB o = true) :
    ∃ es, pyOr (o.getD .null) (.obj []) = .obj es := by
  cases o with
  | none => exact ⟨[], rfl⟩
  | some v =>
    by_cases ht : pyTruthy v = true
    · simp [optB, safeInfoB, ht] at h
      cases v <;> simp [isObjB] at h ⊢ <;> simp [pyOr, pyTruthy] at ht ⊢ <;> simp [ht]
    · refine ⟨[], ?_⟩
      simp only [Option.getD_some, pyOr]
      rw [if_neg (by simp [ht])]

theorem optB_namedList_getD (o : Option JValue) (h : optB namedListB o = true) :
    ∃ l, o.getD (.arr []) = .arr l ∧ ∀ c ∈ l, namedItemB c = true := by
  cases o with
  | none => exact ⟨[], rfl, by simp⟩
  | some v =>
    cases v with
    | arr l =>
      refine ⟨l, rfl, ?_⟩
      simpa [optB, namedListB, List.all_eq_true] using h
    | null => simp [optB, namedListB] at h
    | bool b => simp [optB, namedListB] at h
    | num n => simp [optB, namedListB] at h
    | str s => simp [optB, namedListB] at h
    | obj es => simp [optB, namedListB] at h

theorem optB_strList_getD (o : Option JValue) (h : optB strListB o = true) :
    ∃ l, o.getD (.arr []) = .arr l ∧ ∀ c ∈ l, isStrB c = true := by
  cases o with
  | none => exact ⟨[], rfl, by simp⟩
  | some v =>
    cases v with
    | arr l =>
      refine ⟨l, rfl, ?_⟩
      simpa [optB, strListB, List.all_eq_true] using h
    | null => simp [optB, strListB] at h
    | bool b => simp [optB, strListB] at h
    | num n => simp [optB, strListB] at h
    | str s => simp [optB, strListB] at h
    | obj es => simp [optB, strListB] at h

theorem optB_linksList_getD (o : Option JValue) (h : optB linksListB o = true) :
    ∃ l, o.getD (.arr []) = .arr l ∧ ∀ c ∈ l, linkItemB c = true := by
  cases o with
  | none => exact ⟨[], rfl, by simp⟩
  | some v =>
    cases v with
    | arr l =>
      refine ⟨l, rfl, ?_⟩
      simpa [optB, linksListB, List.all_eq_true] using h
    | null => simp [optB, linksListB] at h
    | bool b => simp [optB, linksListB] at h
    | num n => simp [optB, linksListB] at h
    | str s => simp [optB, linksListB] at h
    | obj es => simp [optB, linksListB] at h

theorem mapSubscr_names (l : List JValue) (h : ∀ c ∈ l, namedItemB c = true) :
    ∃ ns, mapSubscr "name" l = .ok ns ∧ ∀ n ∈ ns, isStrB n = true := by
  induction l with
  | nil => exact ⟨[], rfl, by simp⟩
  | cons c cs ih =>
    have hc : namedItemB c = true := h c (by simp)
    obtain ⟨es, rfl⟩ : ∃ es, c = .obj es := by
      cases c <;> simp [namedItemB] at hc ⊢
    obtain ⟨s, hs⟩ : ∃ s, es.lookup "name" = some (.str s) := by
      cases hlk : es.lookup "name" with
      | none => simp [namedItemB, hlk] at hc
      | some v =>
        cases v <;> simp [namedItemB, hlk] at hc ⊢
    obtain ⟨ns, hns, hall⟩ := ih (fun q hq => h q (by simp [hq]))
    refine ⟨.str s :: ns, ?_, ?_⟩
    · simp [mapSubscr, pySubscr, hs, hns, okBind]
    · intro n hn
      rcases List.mem_cons.1 hn with rfl | hn2
      · rfl
      · exact hall n hn2

theorem asStrings_all (l : List JValue) (h : ∀ x ∈ l, isStrB x = true) :
    ∃ ss, asStrings l = .ok ss := by
  induction l with
  | nil => exact ⟨[], rfl⟩
  | cons x xs ih =>
    have hx : isStrB x = true := h x (by simp)
    obtain ⟨s, rfl⟩ : ∃ s, x = .str s := by
      cases x <;> simp [isStrB] at hx ⊢
    obtain ⟨ss, hss⟩ := ih (fun q hq => h q (by simp [hq]))
    exact ⟨s :: ss, by simp [asStrings, hss, okBind]⟩

theorem pyJoin_ok (sep : String) (l : List JValue) (h : ∀ x ∈ l, isStrB x = true) :
    ∃ s, pyJoin sep l = .ok s := by
  obtain ⟨ss, hss⟩ := asStrings_all l h
  exact ⟨String.intercalate sep ss, by simp [pyJoin, hss, okBind]⟩

theorem comprehensionLinks_ok (side : String) (l : List JValue)
    (h : ∀ x ∈ l, linkSideB side x = true) :
    ∃ ks, comprehensionLinks side l = .ok ks ∧ ∀ k ∈ ks, isStrB k = true := by
  induction l with
  | nil => exact ⟨[], rfl, by simp⟩
  | cons link ls ih =>
    have hx : linkSideB side link = true := h link (by simp)
    obtain ⟨es, rfl⟩ : ∃ es, link = .obj es := by
      cases link <;> simp [linkSideB] at hx ⊢
    obtain ⟨ks, hks, hall⟩ := ih (fun q hq => h q (by simp [hq]))
    cases hlk : es.lookup side with
    | none =>
      refine ⟨ks, ?_, hall⟩
      simp [comprehensionLinks, pyContains, hlk, hks, okBind]
    | some inner =>
      obtain ⟨es2, rfl⟩ : ∃ es2, inner = .obj es2 := by
        cases inner <;> simp [linkSideB, hlk] at hx ⊢
      obtain ⟨s, hs⟩ : ∃ s, es2.lookup "key" = some (.str s) := by
        cases hlk2 : es2.lookup "key" with
        | none => simp [linkSideB, hlk, hlk2] at hx
        | some v =>
          cases v <;> simp [linkSideB, hlk, hlk2] at hx ⊢
      refine ⟨.str s :: ks, ?_, ?_⟩
      · simp [comprehensionLinks, pyContains, hlk, pySubscr, hs, hks, okBind]
      · intro k hk
        rcases List.mem_cons.1 hk with rfl | hk2
        · rfl
        · exact hall k hk2

theorem dateLogic_safe (v : JValue) (h : createdB v = true) :
    ∃ t, dateLogic v = .ok t := by
  by_cases ht : pyTruthy v = true
  · simp only [createdB, ht, Bool.not_true, Bool.false_or] at h
    obtain ⟨s, rfl⟩ : ∃ s, v = .str s := by
      cases v <;> simp [isStrB] at h ⊢
    cases hp : fromisoformatNoFrac (truncateAtDot s) with
    | none =>
      exact ⟨(.str "N/A", .str "N/A", .str "N/A"), by simp [dateLogic, ht, hp]⟩
    | some t =>
      obtain ⟨y, m, d⟩ := t
      exact ⟨(.str (formatDate y m d), .num (m : Int), .num (y : Int)),
        by simp [dateLogic, ht, hp]⟩
  · exact ⟨(.str "N/A", .str "N/A", .str "N/A"), by simp [dateLogic, ht]⟩

/-- C6 counterexample: an issue whose `status` is present but null.
`fields.get('status', {})` yields `None` (no `or {}` guard), and
`.get('name', 'N/A')` on `None` raises `AttributeError`, aborting the row —
so "no field's condition ever aborts the row" is false as stated. -/
theorem normalizer_raises_counterexample :
    normalizeIssue (.obj [("fields", .obj [("status", .null)])])
      = .error .attributeError := rfl

/-- C6 (amended): the normalizer never raises on shape-level well-formed
issues (`wellFormedIssue`): every absent field takes its documented default,
null or falsy `reporter`/`assignee`/`priority`/`resolution` collapse to the
empty dict, and a malformed `created` *string* is swallowed (`ValueError`).
Outside that shape the row can abort: a null `status`/`issuetype`/`project`,
a non-string `updated`, a truthy non-string `created`, or malformed
`components`/`labels`/`fixVersions`/`issuelinks` entries raise uncaught
exceptions (counterexample above). -/
theorem normalizer_total_on_wellformed (issue : JValue)
    (h : wellFormedIssue issue = true) :
    ∃ row, normalizeIssue issue = .ok row := by
  obtain ⟨ies, rfl⟩ : ∃ ies, issue = .obj ies := by
    cases issue <;> simp [wellFormedIssue] at h ⊢
  rw [wellFormedIssue] at h
  obtain ⟨fes, hfes⟩ : ∃ fes, (ies.lookup "fields").getD (.obj []) = .obj fes := by
    cases hv : (ies.lookup "fields").getD (.obj []) with
    | obj fes => exact ⟨fes, rfl⟩
    | null => rw [hv] at h; simp at h
    | bool b => rw [hv] at h; simp at h
    | num n => rw [hv] at h; simp at h
    | str s => rw [hv] at h; simp at h
    | arr l => rw [hv] at h; simp at h
  rw [hfes] at h
  simp only [Bool.and_eq_true] at h
  obtain ⟨⟨⟨⟨⟨⟨⟨⟨⟨⟨⟨⟨hproj, hitype⟩, hstat⟩, hrep⟩, hasg⟩, hpri⟩, hres⟩,
    hcomp⟩, hfix⟩, hlab⟩, hlinks⟩, hupd⟩, hcre⟩ := h
  obtain ⟨pes, hpes⟩ := optB_obj_getD _ hproj
  obtain ⟨tes, htes⟩ := optB_obj_getD _ hitype
  obtain ⟨ses, hses⟩ := optB_obj_getD _ hstat
  obtain ⟨res, hres2⟩ := optB_safe_pyOr _ hrep
  obtain ⟨aes, haes⟩ := optB_safe_pyOr _ hasg
  obtain ⟨prs, hprs⟩ := optB_safe_pyOr _ hpri
  obtain ⟨rss, hrss⟩ := optB_safe_pyOr _ hres
  obtain ⟨cl, hcl, hclall⟩ := optB_namedList_getD _ hcomp
  obtain ⟨fl, hfl, hflall⟩ := optB_namedList_getD _ hfix
  obtain ⟨ll, hll, hllall⟩ := optB_strList_getD _ hlab
  obtain ⟨kl, hkl, hklall⟩ := optB_linksList_getD _ hlinks
  obtain ⟨cns, hcns, hcnsall⟩ := mapSubscr_names cl hclall
  obtain ⟨fns, hfns, hfnsall⟩ := mapSubscr_names fl hflall
  obtain ⟨cstr, hcstr⟩ := pyJoin_ok ", " cns hcnsall
  obtain ⟨fstr, hfstr⟩ := pyJoin_ok ", " fns hfnsall
  obtain ⟨lstr, hlstr⟩ := pyJoin_ok ", " ll hllall
  obtain ⟨oks, hoks, hoksall⟩ := comprehensionLinks_ok "outwardIssue" kl
    (fun x hx => by
      have := hklall x hx
      simp only [linkItemB, Bool.and_eq_true] at this
      exact this.1)
  obtain ⟨iks, hiks, hiksall⟩ := comprehensionLinks_ok "inwardIssue" kl
    (fun x hx => by
      have := hklall x hx
      simp only [linkItemB, Bool.and_eq_true] at this
      exact this.2)
  obtain ⟨jstr, hjstr⟩ := pyJoin_ok ", " (oks ++ iks)
    (fun x hx => by
      rcases List.mem_append.1 hx with hx1 | hx2
      · exact hoksall x hx1
      · exact hiksall x hx2)
  obtain ⟨us, hus⟩ := optB_str_getD _ "N/A" hupd
  obtain ⟨dt, hdt⟩ := dateLogic_safe ((fes.lookup "created").getD (.str "")) (by
    cases hlk : fes.lookup "created" with
    | none => rfl
    | some v => rw [hlk] at hcre; simpa [optB] using hcre)
  have hInfos : extractInfos (.obj fes)
      = .ok (.obj pes, .obj tes, .obj res, .obj aes, .obj prs, .obj rss) := by
    simp only [extractInfos, pyGetD_obj, pyGet, okBind, hpes, htes, hres2, haes,
      hprs, hrss]
  have hLists : extractLists (.obj fes) = .ok (cstr, fstr, lstr, jstr) := by
    simp only [extractLists, pyGetD_obj, okBind, hcl, hfl, hll, hkl, pyIter_arr,
      hcns, hfns, hcstr, hfstr, hlstr, hoks, hiks, hjstr]
  have hPeople : peopleFields (.obj res) (.obj aes)
      = .ok ((res.lookup "displayName").getD .null,
             (res.lookup "accountId").getD .null,
             (aes.lookup "displayName").getD .null,
             (aes.lookup "accountId").getD .null) := rfl
  have hType : typeField (.obj tes)
      = .ok (pyOr ((tes.lookup "name").getD .null)
          (pyOr ((tes.lookup "id").getD .null) (.str "N/A (Corrupt)"))) := rfl
  have hGets : dictGets (.obj fes) (.obj pes) (.obj prs) (.obj rss)
      = .ok ((pes.lookup "key").getD (.str "N/A"),
             (fes.lookup "summary").getD (.str "No Summary"),
             .str (splitAtT us),
             (ses.lookup "name").getD (.str "N/A"),
             (prs.lookup "name").getD (.str "Normal"),
             (rss.lookup "name").getD (.str "Unresolved")) := by
    simp only [dictGets, pyGetD_obj, okBind, hus, hses, updatedLogic, subName]
  apply exists_of_exceptOk
  simp only [normalizeIssue, pyGetD_obj, pyGet, okBind, hfes, hInfos, hLists,
    hPeople, hType, hdt, hGets]
  rfl

/-- C6 witness for the amended totality: a well-formed issue exercising the
guards (null priority, absent reporter, list columns present) normalizes
without raising. -/
theorem normalizer_total_on_wellformed_witness :
    ∃ row, normalizeIssue (.obj [("key", .str "GDP-1"),
      ("fields", .obj [("status", .obj [("name", .str "Done")]),
        ("priority", .null),
        ("components", .arr [.obj [("name", .str "core")]]),
        ("labels", .arr [.str "bi"]),
        ("created", .str "2025-11-22T22:16:22.000-0300")])]) = .ok row :=
  normalizer_total_on_wellformed (.obj [("key", .str "GDP-1"),
    ("fields", .obj [("status", .obj [("name", .str "Done")]),
      ("priority", .null),
      ("components", .arr [.obj [("name", .str "core")]]),
      ("labels", .arr [.str "bi"]),
      ("created", .str "2025-11-22T22:16:22.000-0300")])]) (by rfl)

/-- C7: normalizing an issue whose `fields.created` is
`"2025-11-22T22:16:22.000-0300"` yields Creation Date `"2025-11-22"`,
Creation Month `11` and Creation Year `2025` (the string is truncated at the
first `.` before parsing); and whenever the created string fails to parse,
the date logic leaves all three columns `"N/A"` — shown end-to-end on a
concrete unparsable string and in general over every failing string. -/
theorem creation_date_parsing :
    (∃ row, normalizeIssue
        (.obj [("fields", .obj [("created", .str "2025-11-22T22:16:22.000-0300")])])
        = .ok row ∧
      row.creationDate = .str "2025-11-22" ∧
      row.creationMonth = .num 11 ∧
      row.creationYear = .num 2025) ∧
    (∃ row, normalizeIssue
        (.obj [("fields", .obj [("created", .str "garbage-date")])]) = .ok row ∧
      row.creationDate = .str "N/A" ∧
      row.creationMonth = .str "N/A" ∧
      row.creationYear = .str "N/A") ∧
    (dateLogic (.str "2025-11-22T22:16:22.000-0300")
      = .ok (.str "2025-11-22", .num 11, .num 2025)) ∧
    (∀ s : String, fromisoformatNoFrac (truncateAtDot s) = none →
      dateLogic (.str s) = .ok (.str "N/A", .str "N/A", .str "N/A")) := by
  refine ⟨⟨_, rfl, rfl, rfl, rfl⟩, ⟨_, rfl, rfl, rfl, rfl⟩, rfl, ?_⟩
  intro s h
  by_cases ht : pyTruthy (.str s) = true
  · simp [dateLogic, ht, h]
  · simp [dateLogic, ht]

/-- C7 witness: the universal branch applied at the concrete unparsable
string `"not-a-date"`. -/
theorem creation_date_parsing_witness :
    dateLogic (.str "not-a-date") = .ok (.str "N/A", .str "N/A", .str "N/A") :=
  creation_date_parsing.2.2.2 "not-a-date" (by rfl)

/-- C10: the sub-object `name` defaults fire only when the `name` key is
absent, not when it is present with a null value: a priority object mapping
`name` to null survives the `or {}` guard (it is truthy) and
`.get('name', 'Normal')` returns the stored null, so the row's Priority is
None rather than `"Normal"`; the same holds for Status (`"N/A"`) and
Resolution (`"Unresolved"`), while a genuinely absent key yields the
default. -/
theorem name_default_key_absent_only :
    (∀ es : List (String × JValue), es.lookup "name" = some JValue.null →
      pyOr (JValue.obj es) (JValue.obj []) = JValue.obj es ∧
      subName (JValue.obj es) "Normal" = .ok JValue.null ∧
      subName (JValue.obj es) "N/A" = .ok JValue.null ∧
      subName (JValue.obj es) "Unresolved" = .ok JValue.null) ∧
    (subName (JValue.obj []) "Normal" = .ok (.str "Normal")) ∧
    (∃ row, normalizeIssue
        (.obj [("fields", .obj [("priority", .obj [("name", .null)])])]) = .ok row ∧
      row.priority = JValue.null) := by
  refine ⟨?_, rfl, ⟨_, rfl, rfl⟩⟩
  intro es h
  have hne : es ≠ [] := by
    intro he
    rw [he] at h
    simp [List.lookup] at h
  refine ⟨?_, ?_, ?_, ?_⟩
  · simp only [pyOr, pyTruthy]
    rw [if_pos (by simp [hne])]
  · simp [subName, pyGetD, h]
  · simp [subName, pyGetD, h]
  · simp [subName, pyGetD, h]

/-- C10 witness: the general fact applied at the one-entry object
`[("name", null)]`. -/
theorem name_default_key_absent_only_witness :
    pyOr (JValue.obj [("name", JValue.null)]) (JValue.obj [])
      = JValue.obj [("name", JValue.null)] ∧
    subName (JValue.obj [("name", JValue.null)]) "Normal" = .ok JValue.null ∧
    subName (JValue.obj [("name", JValue.null)]) "N/A" = .ok JValue.null ∧
    subName (JValue.obj [("name", JValue.null)]) "Unresolved" = .ok JValue.null :=
  name_default_key_absent_only.1 [("name", JValue.null)] (by rfl)

/-- A loaded table: column names and rows of cells (as pandas would hold
them after `read_excel`/`read_csv`). -/
structure DataFrame where
  cols : List String
  data : List (List JValue)

/-- Fuel-structured model of Python's `str.replace` over character lists:
replaces every non-overlapping occurrence of `pat` left to right (for
non-empty `pat`, as in the source's `.replace(".xlsx", "_updated.xlsx")`).
One fuel unit per consumed character suffices. -/
def replFuel (pat repl : List Char) : Nat → List Char → List Char
  | 0, cs => cs
  | _ + 1, [] => []
  | fuel + 1, c :: cs =>
    if pat.isPrefixOf (c :: cs) && !pat.isEmpty then
      repl ++ replFuel pat repl fuel (cs.drop (pat.length - 1))
    else
      c :: replFuel pat repl fuel cs

/-- `s.replace(pat, repl)`. -/
def pyReplace (s pat repl : String) : String :=
  String.mk (replFuel pat.toList repl.toList s.toList.length s.toList)

/-- `file_path.replace(".xlsx", "_updated.xlsx")` — the output filename. -/
def outputFilename (file_path : String) : String :=
  pyReplace file_path ".xlsx" "_updated.xlsx"

/-- First index of a column name (pandas column lookup). -/
def colIdx (name : String) : List String → Option Nat
  | [] => none
  | c :: cs => if c == name then some 0 else (colIdx name cs).map (fun i => i + 1)

/-- Whether `pat` occurs as a substring. -/
def hasSub (pat : List Char) : List Char → Bool
  | [] => pat.isEmpty
  | c :: cs => pat.isPrefixOf (c :: cs) || hasSub pat cs

/-- Whether one cell equals one lookup-list entry: pandas `isin` element
equality; a string cell matches on exact string equality, a non-string cell
never equals a string. -/
def cellMatches (cell : JValue) (s : String) : Bool :=
  match cell with
  | .str c => c == s
  | _ => false

/-- `df[column].isin(lookup_list).astype(int)` for one cell. -/
def isinInt (cell : JValue) (lookup_list : List String) : JValue :=
  .num (if lookup_list.any (cellMatches cell) then 1 else 0)

/-- `df[column]` as a list of cells (missing cells read as NaN/null). -/
def dfGetColumn (df : DataFrame) (name : String) : Option (List JValue) :=
  match colIdx name df.cols with
  | some i => some (df.data.map (fun r => r.getD i JValue.null))
  | none => none

/-- `df[name] = vals`: pandas assignment overwrites an existing column in
place and appends a new one at the right edge. -/
def dfSetColumn (df : DataFrame) (name : String) (vals : List JValue) : DataFrame :=
  match colIdx name df.cols with
  | some i =>
    { cols := df.cols, data := (df.data.zip vals).map (fun p => p.1.set i p.2) }
  | none =>
    { cols := df.cols ++ [name], data := (df.data.zip vals).map (fun p => p.1 ++ [p.2]) }

/-- Result of one run of the companion utility, past the file-reading layer
(the claim conditions on a successfully read table, so the model starts from
the loaded `DataFrame`): either the checked column is missing (error printed,
nothing written) or a derived file is written under the computed name. -/
inductive UtilResult where
  | columnMissing
  | written (filename : String) (df : DataFrame)

/-- `add_binary_column_from_list` of `typify-traditional-team.py`, from the
loaded table onward: checks the column, computes the 0/1 membership column,
overwrites-or-appends it, and writes the derived file whose name is the
input path with every `".xlsx"` occurrence replaced by `"_updated.xlsx"`. -/
def add_binary_column_from_list (file_path : String) (df : DataFrame)
    (column_to_check : String) (lookup_list : List String)
    (new_column_name : String) : UtilResult :=
  if column_to_check ∈ df.cols then
    let newVals := ((dfGetColumn df column_to_check).getD []).map
      (fun c => isinInt c lookup_list)
    .written (outputFilename file_path) (dfSetColumn df new_column_name newVals)
  else .columnMissing

theorem zip_map_append (l : List (List JValue)) (f : List JValue → JValue) :
    ((l.zip (l.map f)).map (fun p => p.1 ++ [p.2]))
      = l.map (fun r => r ++ [f r]) := by
  induction l with
  | nil => rfl
  | cons r rs ih => simp [ih]

theorem colIdx_mem (name : String) :
    ∀ (cols : List String), name ∈ cols → ∃ i, colIdx name cols = some i := by
  intro cols
  induction cols with
  | nil => intro h; simp at h
  | cons c cs ih =>
    intro h
    by_cases hc : c = name
    · exact ⟨0, by simp [colIdx, hc]⟩
    · have hmem : name ∈ cs := by
        rcases List.mem_cons.1 h with rfl | hm
        · exact absurd rfl hc
        · exact hm
      obtain ⟨i, hi⟩ := ih hmem
      refine ⟨i + 1, ?_⟩
      rw [colIdx, if_neg (by simp [hc]), hi]
      rfl

theorem colIdx_not_mem (name : String) :
    ∀ (cols : List String), name ∉ cols → colIdx name cols = none := by
  intro cols
  induction cols with
  | nil => intro; rfl
  | cons c cs ih =>
    intro h
    rw [colIdx]
    rw [if_neg (by simp; intro hc; exact h (by simp [hc]))]
    rw [ih (fun hm => h (by simp [hm]))]
    rfl

/-- C8 counterexample: for an input the utility reads via the CSV fallback
under a `.csv` name, `file_path.replace(".xlsx", "_updated.xlsx")` finds no
occurrence, so the "derived" output name is the input path itself: no
`_updated` suffix appears and the input file is overwritten in place. -/
theorem updated_suffix_counterexample :
    add_binary_column_from_list "consolidated_report.csv"
      ⟨["Reporter Name"], [[.str "juan.perna"], [.str "someone else"]]⟩
      "Reporter Name" ["juan.perna"] "Traditional"
      = .written "consolidated_report.csv"
        ⟨["Reporter Name", "Traditional"],
         [[.str "juan.perna", .num 1], [.str "someone else", .num 0]]⟩ ∧
    hasSub "_updated".toList "consolidated_report.csv".toList = false := by
  constructor
  · rfl
  · rfl

/-- C8 (amended): for every successfully read table containing the checked
column (and a genuinely new output column name), the utility writes a
derived table whose name is the input path with every `".xlsx"` occurrence
replaced by `"_updated.xlsx"` — the advertised `_updated` suffix for the
usual single-`.xlsx`-extension path, but the unchanged input path (an
in-place overwrite) for e.g. a CSV-named input; the output holds the input
rows and columns unchanged plus exactly one new column whose value is 1 when
the row's checked-column value is an exact string match of a reference-list
member and 0 otherwise. -/
theorem binary_column_amended (file_path col new : String)
    (lst : List String) (df : DataFrame)
    (hc : col ∈ df.cols) (hn : new ∉ df.cols) :
    ∃ i, colIdx col df.cols = some i ∧
      add_binary_column_from_list file_path df col lst new
        = .written (outputFilename file_path)
          ⟨df.cols ++ [new],
           df.data.map (fun r => r ++ [isinInt (r.getD i JValue.null) lst])⟩ ∧
      (∀ cell : JValue,
        (isinInt cell lst = .num 1 ↔ ∃ s ∈ lst, cell = .str s) ∧
        (isinInt cell lst = .num 1 ∨ isinInt cell lst = .num 0)) := by
  obtain ⟨i, hi⟩ := colIdx_mem col df.cols hc
  refine ⟨i, hi, ?_, ?_⟩
  · rw [add_binary_column_from_list, if_pos hc]
    rw [dfGetColumn, hi]
    simp only [Option.getD_some]
    rw [dfSetColumn, colIdx_not_mem new df.cols hn]
    rw [List.map_map]
    rw [zip_map_append]
    rfl
  · intro cell
    constructor
    · constructor
      · intro h1
        rw [isinInt] at h1
        by_cases hany : lst.any (cellMatches cell) = true
        · obtain ⟨s, hs, hmatch⟩ := List.any_eq_true.1 hany
          refine ⟨s, hs, ?_⟩
          cases cell <;> simp [cellMatches] at hmatch ⊢
          exact hmatch
        · rw [if_neg hany] at h1
          simp at h1
      · intro ⟨s, hs, hcell⟩
        subst hcell
        rw [isinInt, if_pos (List.any_eq_true.2 ⟨s, hs, by simp [cellMatches]⟩)]
    · rw [isinInt]
      by_cases hany : lst.any (cellMatches cell) = true
      · rw [if_pos hany]; exact Or.inl rfl
      · rw [if_neg hany]; exact Or.inr rfl

/-- C8 witness for the amended statement: a two-row table with the checked
column present. -/
theorem binary_column_amended_witness :
    ∃ i, colIdx "Reporter Name" ["Reporter Name"] = some i ∧
      add_binary_column_from_list "consolidated_report.xlsx"
        ⟨["Reporter Name"], [[.str "juan.perna"], [.str "someone else"]]⟩
        "Reporter Name" ["juan.perna"] "Traditional"
        = .written (outputFilename "consolidated_report.xlsx")
          ⟨["Reporter Name"] ++ ["Traditional"],
           [[.str "juan.perna"], [.str "someone else"]].map
             (fun r => r ++ [isinInt (r.getD i JValue.null) ["juan.perna"]])⟩ ∧
      (∀ cell : JValue,
        (isinInt cell ["juan.perna"] = .num 1 ↔
          ∃ s ∈ ["juan.perna"], cell = .str s) ∧
        (isinInt cell ["juan.perna"] = .num 1 ∨
          isinInt cell ["juan.perna"] = .num 0)) :=
  binary_column_amended "consolidated_report.xlsx" "Reporter Name" "Traditional"
    ["juan.perna"] ⟨["Reporter Name"], [[.str "juan.perna"], [.str "someone else"]]⟩
    (by simp) (by simp)

/-- The body of the `try` in `get_all_accessible_projects`, after
`response.json()`: the comprehension `[p['key'] for p in projects_data]`
followed by the `', '.join(project_keys[:5])` of the summary print (which
runs before the return and can itself raise, sending control to the handler).
Returns the project keys. -/
def extractKeys (v : JValue) : Except PyErr (List JValue) := do
  let items ← pyIter v
  let keys ← mapSubscr "key" items
  let _ ← asStrings (keys.take 5)
  .ok keys

/-- `get_all_accessible_projects`: the request/JSON layer is abstracted as
`resp` (`.error` for any network, HTTP-status or JSON-parse failure — all
raised inside the same `try`); every failure path prints an error and
returns the empty list. -/
def get_all_accessible_projects (resp : Except Unit JValue) : List JValue :=
  match resp with
  | .error _ => []
  | .ok v =>
    match extractKeys v with
    | .ok keys => keys
    | .error _ => []

/-- Terminal states of the `__main__` orchestration. -/
inductive RunOutcome where
  | noData
  | reportEmitted
deriving DecidableEq, Repr

/-- What one run did: its terminal state, how many projects were processed
by the per-project sweep, and how many records reached the report. -/
structure RunResult where
  outcome : RunOutcome
  projectsProcessed : Nat
  totalRecords : Nat
deriving DecidableEq, Repr

/-- The `__main__` block: catalog fetch; empty catalog warns and exits
before any per-project work (`NoData`, zero projects processed); otherwise
each project is paginated in order and the aggregate either feeds the report
or ends in the no-data warning. `servers i` is the page oracle of the i-th
project. -/
def mainRun (catalogResp : Except Unit JValue)
    (servers : Nat → Nat → Option Nat → PageResponse) : RunResult :=
  let projects := get_all_accessible_projects catalogResp
  if projects.isEmpty then ⟨.noData, 0, 0⟩
  else
    let master := concatAll ((List.range projects.length).map
      (fun i => (get_issues_from_project (servers i)).getD []))
    if master.isEmpty then ⟨.noData, projects.length, 0⟩
    else ⟨.reportEmitted, projects.length, master.length⟩

/-- C9: every network, authorization or parse failure during catalog fetch
makes `get_all_accessible_projects` return the empty sequence rather than
raise (both when the request/JSON layer fails and when key extraction over
the parsed body fails); and with an empty catalog the orchestrator
terminates cleanly in the `NoData` state with zero projects processed and no
report produced. -/
theorem catalog_failure_yields_empty :
    (∀ e : Unit, get_all_accessible_projects (.error e) = []) ∧
    (∀ (v : JValue) (err : PyErr), extractKeys v = .error err →
      get_all_accessible_projects (.ok v) = []) ∧
    (∀ (resp : Except Unit JValue) (servers : Nat → Nat → Option Nat → PageResponse),
      get_all_accessible_projects resp = [] →
      mainRun resp servers = ⟨.noData, 0, 0⟩) := by
  refine ⟨fun e => rfl, ?_, ?_⟩
  · intro v err h
    rw [get_all_accessible_projects, h]
  · intro resp servers h
    rw [mainRun, h]
    rfl

/-- C9 witness: the catalog-error case, an unparsable catalog body (a
non-iterable JSON null), and the resulting `NoData` run. -/
theorem catalog_failure_yields_empty_witness :
    get_all_accessible_projects (.error ()) = [] ∧
    get_all_accessible_projects (.ok .null) = [] ∧
    mainRun (.error ()) (fun _ _ _ => .ok []) = ⟨.noData, 0, 0⟩ :=
  ⟨catalog_failure_yields_empty.1 (),
    catalog_failure_yields_empty.2.1 .null .typeError rfl,
    catalog_failure_yields_empty.2.2 (.error ()) (fun _ _ _ => .ok [])
      (catalog_failure_yields_empty.1 ())⟩
